import Mathlib

/-!
# etcd-config: a shallow embedding of `etcdconfig.go`

The handle `EtcdConfig`, its constructor `NewClient`, the setup routine `SetWatcher`,
the cache writer `WriteCache`, the watch loop `startWatch`, `EtcdPut`, `EtcdGet` and
`GetDiscoverServices` are translated function by function.  Go strings and byte slices are
lists of bytes.  Every call that leaves the process (the etcd client, the file system, the
environment, the typed reader) takes its outcome as an explicit argument and is recorded in a
trace of effects, so that the control flow of the Go code is what the theorems talk about.
-/

namespace EtcdCfg

/-! ## Strings -/

/-- A Go `string` or `[]byte`: a finite sequence of bytes. -/
abbrev GoString := List UInt8

/-- An ASCII literal as a Go string, one byte per character. -/
def str (s : String) : GoString := s.toList.map (fun c => UInt8.ofNat c.toNat)

/-- The byte `'/'`. -/
def slash : UInt8 := 47

/-- Go `strings.Split(s, sep)` for a separator of one byte: the maximal pieces of `s` between
occurrences of `sep`; the result always has at least one piece. -/
def stringsSplit (sep : UInt8) : GoString → List GoString
  | [] => [[]]
  | c :: cs =>
    if c = sep then [] :: stringsSplit sep cs
    else
      match stringsSplit sep cs with
      | [] => [[c]]
      | p :: ps => (c :: p) :: ps

/-- Go `strings.Join(elems, sep)` for a separator of one byte. -/
def stringsJoin (sep : UInt8) : List GoString → GoString
  | [] => []
  | [a] => a
  | a :: b :: rest => a ++ sep :: stringsJoin sep (b :: rest)

/-! ## Values of the etcd client -/

/-- A Go `error` value (its message). -/
abbrev GoError := String

/-- The fields of `mvccpb.KeyValue` the program reads. -/
structure KeyValue where
  Key : GoString
  Value : GoString
  CreateRevision : Int
  ModRevision : Int
deriving DecidableEq, Repr

/-- The event type of `mvccpb.Event`: `PUT = 0`, `DELETE = 1`; any other number is an
unknown kind. -/
abbrev EventType := Nat

/-- The constant `EventTypePut`. -/
def EventTypePut : EventType := 0

/-- The constant `EventTypeDelete`. -/
def EventTypeDelete : EventType := 1

/-- A watch event of the etcd client (field `Typ` is the Go field `Type`). -/
structure Event where
  Typ : EventType
  Kv : KeyValue
deriving DecidableEq, Repr

/-- The method `(*Event).IsCreate` of the etcd client: a put whose key is new. -/
def Event.IsCreate (ev : Event) : Bool :=
  ev.Typ == EventTypePut && ev.Kv.CreateRevision == ev.Kv.ModRevision

/-- The method `(*Event).IsModify` of the etcd client: a put on an existing key. -/
def Event.IsModify (ev : Event) : Bool :=
  ev.Typ == EventTypePut && ev.Kv.CreateRevision != ev.Kv.ModRevision

/-- The configuration `client.Config` that `NewClient` hands to `client.New`; the two
timeouts are in seconds. -/
structure ClientConfig where
  Endpoints : List GoString
  DialKeepAliveTimeout : Nat
  DialTimeout : Nat
  Password : GoString
deriving DecidableEq, Repr

/-- An open etcd client: the configuration it was opened with. -/
structure Client where
  cfg : ClientConfig
deriving DecidableEq, Repr

/-- The typed store built by `NewViper`: the settings given to viper before
`ReadInConfig`, and whether `WatchConfig` was started. -/
structure Viper where
  configName : GoString
  configType : GoString
  configPath : GoString
  watching : Bool
deriving DecidableEq, Repr

/-! ## Go maps -/

/-- A Go `map[string][]string`: a partial function on keys. -/
abbrev GoMap := GoString → Option (List GoString)

/-- The map made by `make(map[string][]string)`. -/
def GoMap.empty : GoMap := fun _ => none

/-- The Go read `m[k]` on a map of slices: the nil slice when `k` is absent. -/
def GoMap.index (m : GoMap) (k : GoString) : List GoString := (m k).getD []

/-- The Go assignment `m[k] = v`. -/
def GoMap.set (m : GoMap) (k : GoString) (v : List GoString) : GoMap :=
  fun k' => if k' = k then some v else m k'

/-! ## The handle -/

/-- The constant `FN`: the base name of the cache file. -/
def FN : GoString := str "application"

/-- The constant `PATH`: the name of the environment variable holding the cache root. -/
def PATH : GoString := str "HOME"

/-- The struct `EtcdConfig` (the lock is left out: the embedding is sequential). -/
structure EtcdConfig where
  client : Option Client
  keyName : GoString
  group : GoString
  configType : GoString
  endpoints : List GoString
  password : GoString
  lastSentRev : Int
  v : Option Viper
  path : GoString
  keyPrefix : GoString
deriving DecidableEq, Repr

/-- The zero value `&EtcdConfig{}`. -/
def EtcdConfig.zero : EtcdConfig :=
  { client := none, keyName := [], group := [], configType := [], endpoints := [],
    password := [], lastSentRev := 0, v := none, path := [], keyPrefix := [] }

/-- The function `NewClient`.  `dialErr` is the error of `client.New` (`none` when the client
opens); `prefixes` is the variadic argument. -/
def NewClient (dialErr : Option GoError) (endpoints : List GoString) (password : GoString)
    (group configType : GoString) (prefixes : List GoString) : Except GoError EtcdConfig :=
  let e := EtcdConfig.zero
  let e := { e with endpoints := endpoints }
  let e := { e with configType := configType }
  let e := { e with group := group }
  let e := if password ≠ [] then { e with password := password } else e
  let cfg : ClientConfig :=
    { Endpoints := e.endpoints, DialKeepAliveTimeout := 10, DialTimeout := 30,
      Password := e.password }
  match dialErr with
  | some err => .error err
  | none =>
    let e := { e with client := some ⟨cfg⟩ }
    let e :=
      match prefixes with
      | [] => { e with keyPrefix := str "/hub-config/etcd" }
      | p :: _ => { e with keyPrefix := p }
    let e := { e with keyName := e.keyPrefix ++ str "/" ++ e.group ++ str "/" ++ e.configType }
    .ok e

/-! ## Paths (Go `path/filepath`, Unix) -/

/-- One path element of `filepath.Clean`, on the stack of elements kept so far (last kept
element first): empty and `.` elements are dropped, `..` removes the element before it, is
dropped at the root, and is kept at the start of a path that is not rooted. -/
def cleanStep (rooted : Bool) (stack : List GoString) (seg : GoString) : List GoString :=
  if seg = [] ∨ seg = str "." then stack
  else if seg = str ".." then
    match stack with
    | [] => if rooted then [] else [seg]
    | top :: rest => if top = str ".." then seg :: stack else rest
  else seg :: stack

/-- Go `filepath.Clean` on Unix, by its documented rules: the shortest path naming the same
place by purely lexical processing; `"."` for the empty path. -/
def filepathClean (path : GoString) : GoString :=
  if path = [] then str "."
  else
    let rooted := path.head? = some slash
    let kept := ((stringsSplit slash path).foldl (cleanStep rooted) []).reverse
    let body := stringsJoin slash kept
    if rooted then slash :: body
    else if body = [] then str "." else body

/-- Go `filepath.Join` on Unix: the elements from the first non-empty one on are joined with
`'/'` and cleaned; the empty string when every element is empty. -/
def filepathJoin : List GoString → GoString
  | [] => []
  | e :: rest =>
    if e ≠ [] then filepathClean (stringsJoin slash (e :: rest)) else filepathJoin rest

/-- The path made of the elements `segs`, each preceded by `'/'`; empty when there is none. -/
def absPath : List GoString → GoString
  | [] => []
  | seg :: rest => slash :: (seg ++ absPath rest)

/-- A path element that `filepath.Clean` keeps as it is: non-empty, without `'/'`, and
neither `.` nor `..`. -/
def plainElem (seg : GoString) : Prop :=
  seg ≠ [] ∧ slash ∉ seg ∧ seg ≠ str "." ∧ seg ≠ str ".."

instance (seg : GoString) : Decidable (plainElem seg) := by
  unfold plainElem
  infer_instance

/-! ## The world outside the handle -/

/-- The file system: the content of each regular file, by name. -/
abbrev FS := GoString → Option GoString

/-- The file system in which file `name` holds `content`, the other files as in `fs`. -/
def FS.write (fs : FS) (name content : GoString) : FS :=
  fun n => if n = name then some content else fs n

/-- How one call of `ioutil.WriteFile` ends. -/
inductive WriteOutcome where
  | ok
  | openFailed (err : GoError)
  | writeFailed (written : Nat) (err : GoError)
deriving DecidableEq, Repr

/-- Go `ioutil.WriteFile(name, data, perm)`: the file is opened with
`O_WRONLY|O_CREATE|O_TRUNC`, written and closed.  A failure to open leaves the file system as
it was; a failure after that leaves the file truncated, holding the bytes written so far. -/
def ioutilWriteFile (fs : FS) (name data : GoString) : WriteOutcome → FS × Option GoError
  | .ok => (fs.write name data, none)
  | .openFailed err => (fs, some err)
  | .writeFailed written err => (fs.write name (data.take written), some err)

/-- The error a call of `ioutil.WriteFile` returns, by how it ends. -/
def WriteOutcome.err : WriteOutcome → Option GoError
  | .ok => none
  | .openFailed err => some err
  | .writeFailed _ err => some err

/-- A call that leaves the process. -/
inductive Effect where
  | mkdirAll (path : GoString) (perm : Nat)
  | goStartWatch
  | clientGet (key : GoString)
  | clientPut (key val : GoString)
  | clientWatch (key : GoString)
  | writeFile (name content : GoString) (perm : Nat)
  | readInConfig (v : Viper)
  | watchConfig
deriving DecidableEq, Repr

/-- The state outside the handle: the file system, the calls made so far (oldest first) and
the number of `WriteFile` calls among them. -/
structure Sys where
  fs : FS
  trace : List Effect
  nWrites : Nat

/-- The outcomes of the calls that leave the process. -/
structure Env where
  getenv : GoString → GoString
  mkdirAll : GoString → Option GoError
  get : GoString → Except GoError (List KeyValue)
  scan : GoString → Except GoError (List KeyValue)
  put : GoString → GoString → Option GoError
  watch : GoString → List (List Event)
  write : Nat → WriteOutcome
  readInConfig : Viper → FS → Option GoError

/-- The `(name, content)` pairs of the `WriteFile` calls of a trace, in order. -/
def writesIn (t : List Effect) : List (GoString × GoString) :=
  t.filterMap (fun eff =>
    match eff with
    | .writeFile name content _ => some (name, content)
    | _ => none)

/-- Whether a trace holds a `ReadInConfig` call. -/
def readsConfig (t : List Effect) : Bool :=
  t.any (fun eff =>
    match eff with
    | .readInConfig _ => true
    | _ => false)

/-- The batches a watcher on `key` receives out of a log of batches of events: the events of
that key, batch by batch; a batch without any is not sent. -/
def watchChan (key : GoString) (log : List (List Event)) : List (List Event) :=
  (log.map (fun res => res.filter (fun ev => ev.Kv.Key = key))).filter (fun res => res ≠ [])

/-! ## The methods of the handle -/

/-- The name of the cache file, as `WriteCache` computes it. -/
def cacheFile (e : EtcdConfig) : GoString :=
  filepathJoin [e.path, FN ++ str "." ++ e.configType]

/-- The method `WriteCache`. -/
def WriteCache (env : Env) (e : EtcdConfig) (content : GoString) (s : Sys) :
    Sys × Option GoError :=
  let name := filepathJoin [e.path, FN ++ str "." ++ e.configType]
  let r := ioutilWriteFile s.fs name content (env.write s.nWrites)
  let s := { fs := r.1, trace := s.trace ++ [.writeFile name content 0o644],
             nWrites := s.nWrites + 1 }
  match r.2 with
  | some err => (s, some err)
  | none => (s, none)

/-- The method `NewViper`. -/
def NewViper (env : Env) (e : EtcdConfig) (s : Sys) : EtcdConfig × Sys × Option GoError :=
  let v : Viper := { configName := FN, configType := e.configType, configPath := e.path,
                     watching := false }
  let err := env.readInConfig v s.fs
  let s := { s with trace := s.trace ++ [.readInConfig v] }
  match err with
  | some err => (e, s, some err)
  | none =>
    let v := { v with watching := true }
    let s := { s with trace := s.trace ++ [.watchConfig] }
    let e := { e with v := some v }
    (e, s, none)

/-- The method `EtcdGet`: the payload and the error it returns. -/
def EtcdGet (env : Env) (e : EtcdConfig) (s : Sys) : GoString × Option GoError × Sys :=
  let getResp := env.get e.keyName
  let s := { s with trace := s.trace ++ [.clientGet e.keyName] }
  match getResp with
  | .error err => ([], some err, s)
  | .ok kvs =>
    match kvs with
    | [] => (str "", none, s)
    | kv :: _ => (kv.Value, none, s)

/-- The method `SetWatcher`, without the body of the goroutine it starts (see `startWatch`). -/
def SetWatcher (env : Env) (e : EtcdConfig) (s : Sys) : EtcdConfig × Sys × Option GoError :=
  let e := { e with path := filepathJoin [env.getenv PATH, e.keyName] }
  let err := env.mkdirAll e.path
  let s := { s with trace := s.trace ++ [.mkdirAll e.path 0o755] }
  match err with
  | some err => (e, s, some err)
  | none =>
    let s := { s with trace := s.trace ++ [.goStartWatch] }
    let g := EtcdGet env e s
    let content := g.1
    let err := g.2.1
    let s := g.2.2
    let content :=
      if err ≠ none ∨ content.length = 0 then
        if e.configType = str "json" then str "\x7b\x7d" else str ""
      else content
    let w := WriteCache env e content s
    match w.2 with
    | some err => (e, w.1, some err)
    | none =>
      let n := NewViper env e w.1
      match n.2.2 with
      | some err => (n.1, n.2.1, some err)
      | none => (n.1, n.2.1, none)

/-- The body of the inner loop of `startWatch`, for one event. -/
def watchBody (env : Env) (e : EtcdConfig) (s : Sys) (ev : Event) : Sys :=
  if ev.IsCreate || ev.IsModify then (WriteCache env e ev.Kv.Value s).1
  else s

/-- The two nested loops of `startWatch` over the batches the watcher delivers until it is
closed. -/
def watchLoop (env : Env) (e : EtcdConfig) (watcher : List (List Event)) (s : Sys) : Sys :=
  watcher.foldl (fun s res => res.foldl (watchBody env e) s) s

/-- The method `startWatch`: it subscribes to `e.keyName` and runs the loops. -/
def startWatch (env : Env) (e : EtcdConfig) (s : Sys) : Sys × Option GoError :=
  let watcher := env.watch e.keyName
  let s := { s with trace := s.trace ++ [.clientWatch e.keyName] }
  (watchLoop env e watcher s, none)

/-- The method `EtcdPut`. -/
def EtcdPut (env : Env) (e : EtcdConfig) (val group configType : GoString) (s : Sys) :
    EtcdConfig × Sys × Option GoError :=
  let configType := if configType = [] then e.configType else configType
  let group := if group = [] then e.group else group
  let e := { e with keyName := e.keyPrefix ++ str "/" ++ group ++ str "/" ++ configType }
  let err := env.put e.keyName val
  let s := { s with trace := s.trace ++ [.clientPut e.keyName val] }
  (e, s, err)

/-! ## Service discovery -/

/-- One iteration of the loop of `GetDiscoverServices` over `resp.Kvs`. -/
def discoverStep (servicesMap : GoMap) (kv : KeyValue) : GoMap :=
  let key := kv.Key
  let value := kv.Value
  let parts := stringsSplit slash key
  if h : 2 ≤ parts.length then
    let serviceName := parts.get ⟨parts.length - 2, by omega⟩
    servicesMap.set serviceName (servicesMap.index serviceName ++ [value])
  else servicesMap

/-- The method `GetDiscoverServices`.  `env.scan` is the prefix scan
`client.Get(ctx, prefix, WithPrefix())`: an error, or the pairs `resp.Kvs` in the order the
scan returned them. -/
def GetDiscoverServices (env : Env) (e : EtcdConfig) : Except GoError GoMap :=
  let resp := env.scan e.keyPrefix
  match resp with
  | .error err => .error err
  | .ok kvs => .ok (kvs.foldl discoverStep GoMap.empty)

/-! ## The statements of the specification, in its own words -/

/-- The service name read off a key: the second-to-last piece of the key split on `'/'`, when
there are at least two pieces. -/
def serviceOfKey (key : GoString) : Option GoString :=
  let parts := stringsSplit slash key
  if 2 ≤ parts.length then parts.get? (parts.length - 2) else none

/-- The values, in scan order and with repetitions, of the pairs whose key names service `s`. -/
def valuesOfService (kvs : List KeyValue) (s : GoString) : List GoString :=
  (kvs.filter (fun kv => serviceOfKey kv.Key = some s)).map (fun kv => kv.Value)

/-- The map of services by name: `s` is present exactly when some pair names it. -/
def servicesSpec (kvs : List KeyValue) : GoMap :=
  fun s => if valuesOfService kvs s = [] then none else some (valuesOfService kvs s)

/-- The document written when there is no payload: `{}` for JSON, nothing otherwise. -/
def emptyDocument (configType : GoString) : GoString :=
  if configType = str "json" then str "\x7b\x7d" else str ""

/-- The content of the initial cache write, by cases on the outcome of the first fetch. -/
def initialContentSpec (configType : GoString) :
    Except GoError (List KeyValue) → GoString
  | .error _ => emptyDocument configType
  | .ok [] => emptyDocument configType
  | .ok (kv :: _) => if kv.Value = [] then emptyDocument configType else kv.Value

/-- The value of the last write that succeeded among the writes of `vals`, the first of which
is write number `n`; `none` when none succeeded. -/
def lastWrittenOk (write : Nat → WriteOutcome) : Nat → List GoString → Option GoString
  | _, [] => none
  | n, v :: vs =>
    match lastWrittenOk write (n + 1) vs with
    | some w => some w
    | none => if write n = .ok then some v else none

/-- The content the cache file is said to end with: the value of the last write that
succeeded, and the content `before` the loop when none did. -/
def claimedCache (write : Nat → WriteOutcome) (n : Nat) (vals : List GoString)
    (before : Option GoString) : Option GoString :=
  match lastWrittenOk write n vals with
  | some v => some v
  | none => before

/-- The state after `WriteCache` was called on each of `vals` in turn, errors dropped. -/
def writeEach (env : Env) (e : EtcdConfig) (vals : List GoString) (s : Sys) : Sys :=
  vals.foldl (fun s v => (WriteCache env e v s).1) s

/-- The values the watch loop has to write: those of the create and modify events, in
delivery order. -/
def actionableValues (watcher : List (List Event)) : List GoString :=
  (watcher.flatten.filter (fun ev => ev.IsCreate || ev.IsModify)).map (fun ev => ev.Kv.Value)

/-! ## Concrete inputs -/

/-- An environment in which every call succeeds: the root is `/root`, etcd holds no key and
delivers no event. -/
def quietEnv : Env :=
  { getenv := fun _ => str "/root", mkdirAll := fun _ => none, get := fun _ => .ok [],
    scan := fun _ => .ok [], put := fun _ _ => none, watch := fun _ => [],
    write := fun _ => .ok, readInConfig := fun _ _ => none }

/-- The state before any call: no file, no call made. -/
def emptySys : Sys := { fs := fun _ => none, trace := [], nWrites := 0 }

/-- The handle of the test: `NewClient(endpoints, "", "test", "json")`. -/
def testHandle : EtcdConfig :=
  match NewClient none [str "http://27.0.0.1:2379"] (str "") (str "test") (str "json") [] with
  | .ok e => e
  | .error _ => EtcdConfig.zero

/-- A put event on `key` with value `val`, creating the key. -/
def putEvent (key val : GoString) : Event :=
  { Typ := EventTypePut, Kv := { Key := key, Value := val, CreateRevision := 1, ModRevision := 1 } }

/-- An environment whose disk fills up: the watcher delivers a put of `abc` and then a put
of `xyz`; the first two calls of `WriteFile` (the initial cache write and the write of `abc`)
succeed, every later one fails after the file was truncated. -/
def diskFullEnv : Env :=
  { quietEnv with
    watch := fun key => [[putEvent key (str "abc")], [putEvent key (str "xyz")]]
    write := fun n => if n ≤ 1 then .ok else .writeFailed 0 "no space left on device" }

/-- An environment in which the write of the first event fails halfway and the next write
succeeds: the watcher delivers a put of `abc`, a delete, and a put of `xyz`; of the calls of
`WriteFile`, the second one (the first after the initial cache write) fails. -/
def retryEnv : Env :=
  { quietEnv with
    watch := fun key =>
      [[putEvent key (str "abc"), { putEvent key [] with Typ := EventTypeDelete }],
       [putEvent key (str "xyz")]]
    write := fun n => if n = 1 then .writeFailed 1 "interrupted" else .ok }

/-- The handle of the test after `SetWatcher` in environment `env`. -/
def setupHandle (env : Env) : EtcdConfig := (SetWatcher env testHandle emptySys).1

/-- The state outside the handle of the test after `SetWatcher` in environment `env`. -/
def setupSys (env : Env) : Sys := (SetWatcher env testHandle emptySys).2.1

/-- An environment in which the cache directory cannot be made. -/
def noDirEnv : Env := { quietEnv with mkdirAll := fun _ => some "permission denied" }

/-- An environment in which the cache file cannot be opened for writing. -/
def readOnlyEnv : Env := { quietEnv with write := fun _ => .openFailed "read-only file system" }

/-- An environment in which etcd cannot be reached and the typed reader rejects the cache
file. -/
def badParseEnv : Env :=
  { quietEnv with
    get := fun _ => .error "context deadline exceeded"
    readInConfig := fun _ _ => some "While parsing config: unexpected end of JSON input" }

/-- An environment in which etcd cannot be reached and everything else succeeds. -/
def offlineEnv : Env := { quietEnv with get := fun _ => .error "context deadline exceeded" }

/-- An environment whose prefix scan returns the three keys of the service-discovery example
under `/services`. -/
def discoverEnv : Env :=
  { quietEnv with
    scan := fun _ => .ok
      [⟨str "/services/svcA/1", str "v1", 1, 1⟩, ⟨str "/services/svcA/2", str "v2", 2, 2⟩,
       ⟨str "/services/svcB/1", str "v3", 3, 3⟩] }

/-- The handle of the test after `EtcdPut("x", "other", "")`. -/
def overriddenHandle : EtcdConfig :=
  (EtcdPut quietEnv testHandle (str "x") (str "other") (str "") emptySys).1

/-- An environment whose prefix scan returns the one pair stored by
`EtcdPut("x", "other", "")` on the handle of the test. -/
def overrideEnv : Env :=
  { quietEnv with scan := fun _ => .ok [⟨str "/hub-config/etcd/other/json", str "x", 1, 1⟩] }

/-- An environment whose prefix scan returns the configuration entry of the handle of the
test. -/
def ownEntryEnv : Env :=
  { quietEnv with
    scan := fun _ => .ok [⟨str "/hub-config/etcd/test/json", str "\x7b\"a\":1\x7d", 1, 1⟩] }

/-! # Theorems -/

/-! ## Splitting and joining -/

theorem stringsSplit_ne_nil (sep : UInt8) (s : GoString) : stringsSplit sep s ≠ [] := by
  induction s with
  | nil => simp [stringsSplit]
  | cons c cs ih =>
    unfold stringsSplit
    split
    · simp
    · split <;> simp

theorem stringsSplit_cons_sep (sep : UInt8) (s : GoString) :
    stringsSplit sep (sep :: s) = [] :: stringsSplit sep s := by
  simp [stringsSplit]

theorem stringsSplit_cons_ne (sep c : UInt8) (s : GoString) (h : c ≠ sep) :
    ∃ p ps, stringsSplit sep s = p :: ps ∧ stringsSplit sep (c :: s) = (c :: p) :: ps := by
  cases hs : stringsSplit sep s with
  | nil => exact absurd hs (stringsSplit_ne_nil sep s)
  | cons p ps => exact ⟨p, ps, rfl, by simp [stringsSplit, h, hs]⟩

theorem stringsSplit_of_not_mem (sep : UInt8) (s : GoString) (h : sep ∉ s) :
    stringsSplit sep s = [s] := by
  induction s with
  | nil => rfl
  | cons c cs ih =>
    have hc : c ≠ sep := fun hc => h (by simp [hc])
    have hcs : sep ∉ cs := fun hm => h (List.mem_cons_of_mem _ hm)
    simp [stringsSplit, hc, ih hcs]

theorem stringsSplit_append (sep : UInt8) (a b : GoString) :
    stringsSplit sep (a ++ sep :: b) = stringsSplit sep a ++ stringsSplit sep b := by
  induction a with
  | nil => simp [stringsSplit]
  | cons c cs ih =>
    by_cases hc : c = sep
    · subst hc
      simp [stringsSplit_cons_sep, ih]
    · obtain ⟨p, ps, hp, hcp⟩ := stringsSplit_cons_ne sep c cs hc
      obtain ⟨q, qs, hq, hcq⟩ := stringsSplit_cons_ne sep c (cs ++ sep :: b) hc
      rw [List.cons_append, hcq, hcp]
      rw [ih, hp] at hq
      simp at hq
      simp [hq.1, hq.2]

theorem stringsJoin_stringsSplit (sep : UInt8) (s : GoString) :
    stringsJoin sep (stringsSplit sep s) = s := by
  induction s with
  | nil => rfl
  | cons c cs ih =>
    by_cases hc : c = sep
    · subst hc
      rw [stringsSplit_cons_sep]
      cases hs : stringsSplit c cs with
      | nil => exact absurd hs (stringsSplit_ne_nil c cs)
      | cons p ps => rw [hs] at ih; simp [stringsJoin, ih]
    · obtain ⟨p, ps, hp, hcp⟩ := stringsSplit_cons_ne sep c cs hc
      rw [hcp]
      rw [hp] at ih
      cases ps with
      | nil => simpa [stringsJoin] using ih
      | cons q qs => simp only [stringsJoin] at ih ⊢; simp [← ih]

theorem not_mem_of_mem_stringsSplit (sep : UInt8) (s p : GoString)
    (h : p ∈ stringsSplit sep s) : sep ∉ p := by
  induction s generalizing p with
  | nil => simp [stringsSplit] at h; simp [h]
  | cons c cs ih =>
    by_cases hc : c = sep
    · subst hc
      rw [stringsSplit_cons_sep] at h
      rcases List.mem_cons.1 h with h | h
      · simp [h]
      · exact ih p h
    · obtain ⟨q, qs, hq, hcq⟩ := stringsSplit_cons_ne sep c cs hc
      rw [hcq] at h
      rcases List.mem_cons.1 h with h | h
      · subst h
        have := ih q (by simp [hq])
        intro hm
        rcases List.mem_cons.1 hm with hm | hm
        · exact hc hm.symm
        · exact this hm
      · exact ih p (by simp [hq, h])

/-! ## Service names -/

theorem serviceOfKey_of_not_mem (key : GoString) (h : slash ∉ key) :
    serviceOfKey key = none := by
  simp [serviceOfKey, stringsSplit_of_not_mem slash key h]

theorem serviceOfKey_append (p a b : GoString) (ha : slash ∉ a) (hb : slash ∉ b) :
    serviceOfKey (p ++ slash :: (a ++ slash :: b)) = some a := by
  unfold serviceOfKey
  rw [stringsSplit_append, stringsSplit_append, stringsSplit_of_not_mem slash a ha,
    stringsSplit_of_not_mem slash b hb]
  simp [List.getElem_append_right]

theorem discoverStep_apply (m : GoMap) (kv : KeyValue) (s : GoString) :
    discoverStep m kv s =
      if serviceOfKey kv.Key = some s then some (m.index s ++ [kv.Value]) else m s := by
  unfold discoverStep serviceOfKey
  by_cases h : 2 ≤ (stringsSplit slash kv.Key).length
  · simp only [h, dite_true, if_true, GoMap.set]
    rw [List.get?_eq_get (by omega)]
    simp only [List.get_eq_getElem, Option.some.injEq]
    split_ifs with h1 h2 h2
    · rw [h1]
    · exact absurd h1.symm h2
    · exact absurd h2.symm h1
    · rfl
  · simp [h]

theorem foldl_discoverStep_apply (kvs : List KeyValue) (m : GoMap) (s : GoString) :
    kvs.foldl discoverStep m s =
      if valuesOfService kvs s = [] then m s else some (m.index s ++ valuesOfService kvs s) := by
  induction kvs generalizing m with
  | nil => simp [valuesOfService]
  | cons kv rest ih =>
    rw [List.foldl_cons, ih, discoverStep_apply]
    by_cases hk : serviceOfKey kv.Key = some s
    · simp [valuesOfService, hk, GoMap.index, discoverStep_apply]
    · simp [valuesOfService, hk, GoMap.index, discoverStep_apply]


theorem GetDiscoverServices_ok (env : Env) (e : EtcdConfig) (kvs : List KeyValue)
    (hscan : env.scan e.keyPrefix = .ok kvs) :
    GetDiscoverServices env e = .ok (servicesSpec kvs) := by
  unfold GetDiscoverServices
  simp only [hscan]
  congr 1
  funext s
  rw [foldl_discoverStep_apply]
  simp [servicesSpec, GoMap.empty, GoMap.index]

theorem serviceOfKey_example (pfx : GoString) (a b : String)
    (ha : slash ∉ str a) (hb : slash ∉ str b) :
    serviceOfKey (pfx ++ str "/" ++ str a ++ str "/" ++ str b) = some (str a) := by
  have := serviceOfKey_append pfx (str a) (str b) ha hb
  simpa [str, slash] using this

/-- C1: when the prefix scan returns the pairs `kvs`, `GetDiscoverServices` returns the map
that sends each service name `s` to the values, in scan order and with repetitions, of exactly
the pairs whose key split on `'/'` has at least two pieces and `s` as the second-to-last one,
and holds no other name; a key without `'/'` names no service; and for the keys
`pfx/svcA/1`, `pfx/svcA/2`, `pfx/svcB/1` with values `v1`, `v2`, `v3` the result is
`svcA ↦ [v1, v2]`, `svcB ↦ [v3]` and nothing else. -/
theorem GetDiscoverServices_spec (env : Env) (e : EtcdConfig) (kvs : List KeyValue)
    (hscan : env.scan e.keyPrefix = .ok kvs) :
    GetDiscoverServices env e = .ok (servicesSpec kvs)
    ∧ (∀ s, servicesSpec kvs s = none ↔ ∀ kv ∈ kvs, serviceOfKey kv.Key ≠ some s)
    ∧ (∀ kv ∈ kvs, slash ∉ kv.Key → ∀ s, serviceOfKey kv.Key ≠ some s)
    ∧ (∀ pfx : GoString,
        kvs.map (fun kv => (kv.Key, kv.Value)) =
          [(pfx ++ str "/svcA/1", str "v1"), (pfx ++ str "/svcA/2", str "v2"),
           (pfx ++ str "/svcB/1", str "v3")] →
        ∃ m, GetDiscoverServices env e = .ok m
          ∧ m (str "svcA") = some [str "v1", str "v2"]
          ∧ m (str "svcB") = some [str "v3"]
          ∧ ∀ s, s ≠ str "svcA" → s ≠ str "svcB" → m s = none) := by
  refine ⟨GetDiscoverServices_ok env e kvs hscan, ?_, ?_, ?_⟩
  · intro s
    simp [servicesSpec, valuesOfService, List.filter_eq_nil_iff]
  · intro kv _ hkey s
    simp [serviceOfKey_of_not_mem kv.Key hkey]
  · intro pfx hk
    refine ⟨servicesSpec kvs, GetDiscoverServices_ok env e kvs hscan, ?_⟩
    have h1 : serviceOfKey (pfx ++ str "/svcA/1") = some (str "svcA") := by
      have := serviceOfKey_example pfx "svcA" "1" (by decide) (by decide)
      simpa [str] using this
    have h2 : serviceOfKey (pfx ++ str "/svcA/2") = some (str "svcA") := by
      have := serviceOfKey_example pfx "svcA" "2" (by decide) (by decide)
      simpa [str] using this
    have h3 : serviceOfKey (pfx ++ str "/svcB/1") = some (str "svcB") := by
      have := serviceOfKey_example pfx "svcB" "1" (by decide) (by decide)
      simpa [str] using this
    have hAB : str "svcA" ≠ str "svcB" := by decide
    rcases kvs with _ | ⟨a, _ | ⟨b, _ | ⟨c, _ | ⟨d, r⟩⟩⟩⟩ <;>
      simp only [List.map_cons, List.map_nil, List.cons.injEq, Prod.mk.injEq, and_true,
        and_false, reduceCtorEq] at hk
    · obtain ⟨⟨ha, hav⟩, ⟨hb, hbv⟩, ⟨hc, hcv⟩⟩ := hk
      rw [← ha] at h1
      rw [← hb] at h2
      rw [← hc] at h3
      refine ⟨?_, ?_, ?_⟩
      · simp [servicesSpec, valuesOfService, List.filter_cons, h1, h2, h3, hav, hbv, hAB.symm]
      · simp [servicesSpec, valuesOfService, List.filter_cons, h1, h2, h3, hcv, hAB]
      · intro s hsA hsB
        simp [servicesSpec, valuesOfService, List.filter_cons, h1, h2, h3, hsA.symm, hsB.symm]


/-! ## Writing the cache -/

theorem ioutilWriteFile_err (fs : FS) (name data : GoString) (o : WriteOutcome) :
    (ioutilWriteFile fs name data o).2 = o.err := by
  cases o <;> rfl

theorem WriteCache_err (env : Env) (e : EtcdConfig) (content : GoString) (s : Sys) :
    (WriteCache env e content s).2 = (env.write s.nWrites).err := by
  unfold WriteCache
  simp only [ioutilWriteFile_err]
  cases (env.write s.nWrites).err <;> rfl

theorem WriteCache_trace (env : Env) (e : EtcdConfig) (content : GoString) (s : Sys) :
    (WriteCache env e content s).1.trace = s.trace ++ [.writeFile (cacheFile e) content 0o644] := by
  unfold WriteCache cacheFile
  simp only [ioutilWriteFile_err]
  cases (env.write s.nWrites).err <;> rfl

theorem WriteCache_nWrites (env : Env) (e : EtcdConfig) (content : GoString) (s : Sys) :
    (WriteCache env e content s).1.nWrites = s.nWrites + 1 := by
  unfold WriteCache
  simp only [ioutilWriteFile_err]
  cases (env.write s.nWrites).err <;> rfl

theorem WriteCache_fs (env : Env) (e : EtcdConfig) (content : GoString) (s : Sys) :
    (WriteCache env e content s).1.fs =
      (ioutilWriteFile s.fs (cacheFile e) content (env.write s.nWrites)).1 := by
  unfold WriteCache cacheFile
  simp only [ioutilWriteFile_err]
  cases (env.write s.nWrites).err <;> rfl

theorem writesIn_append (t u : List Effect) : writesIn (t ++ u) = writesIn t ++ writesIn u := by
  simp [writesIn, List.filterMap_append]

theorem readsConfig_append (t u : List Effect) :
    readsConfig (t ++ u) = (readsConfig t || readsConfig u) := by
  simp [readsConfig, List.any_append]

/-! ## Setup -/

theorem EtcdGet_content (env : Env) (e : EtcdConfig) (s : Sys) (ct : GoString) :
    (if (EtcdGet env e s).2.1 ≠ none ∨ (EtcdGet env e s).1.length = 0 then
        (if ct = str "json" then str "\x7b\x7d" else str "")
      else (EtcdGet env e s).1) = initialContentSpec ct (env.get e.keyName) := by
  unfold EtcdGet
  cases h : env.get e.keyName with
  | error err => simp [initialContentSpec, emptyDocument]
  | ok kvs =>
    cases kvs with
    | nil => simp [initialContentSpec, emptyDocument, str]
    | cons kv rest =>
      by_cases hv : kv.Value = []
      · simp [initialContentSpec, emptyDocument, hv]
      · simp [initialContentSpec, emptyDocument, hv]

theorem EtcdGet_trace (env : Env) (e : EtcdConfig) (s : Sys) :
    (EtcdGet env e s).2.2 = { s with trace := s.trace ++ [.clientGet e.keyName] } := by
  unfold EtcdGet
  cases env.get e.keyName with
  | error err => rfl
  | ok kvs => cases kvs <;> rfl

theorem triple_eta {α β γ : Type} (n : α × β × Option γ) :
    (match n.2.2 with
      | some err => (n.1, n.2.1, some err)
      | none => (n.1, n.2.1, none)) = n := by
  rcases n with ⟨a, b, _ | c⟩ <;> rfl

theorem NewViper_err (env : Env) (e : EtcdConfig) (s : Sys) :
    (NewViper env e s).2.2 =
      env.readInConfig ⟨FN, e.configType, e.path, false⟩ s.fs := by
  cases h : env.readInConfig ⟨FN, e.configType, e.path, false⟩ s.fs <;> simp [NewViper, h]

theorem NewViper_sys (env : Env) (e : EtcdConfig) (s : Sys) :
    (NewViper env e s).2.1.fs = s.fs ∧ (NewViper env e s).2.1.nWrites = s.nWrites
    ∧ writesIn (NewViper env e s).2.1.trace = writesIn s.trace := by
  cases h : env.readInConfig ⟨FN, e.configType, e.path, false⟩ s.fs <;>
    simp [NewViper, h, writesIn_append, writesIn]

theorem NewViper_handle (env : Env) (e : EtcdConfig) (s : Sys) :
    (NewViper env e s).1 =
      match env.readInConfig ⟨FN, e.configType, e.path, false⟩ s.fs with
      | some _ => e
      | none => { e with v := some ⟨FN, e.configType, e.path, true⟩ } := by
  cases h : env.readInConfig ⟨FN, e.configType, e.path, false⟩ s.fs <;> simp [NewViper, h]

/-- The steps of `SetWatcher` one after the other. -/
theorem SetWatcher_eq (env : Env) (e : EtcdConfig) (s : Sys) :
    SetWatcher env e s =
      match env.mkdirAll (filepathJoin [env.getenv PATH, e.keyName]) with
      | some err =>
        ({ e with path := filepathJoin [env.getenv PATH, e.keyName] },
          { s with trace := s.trace ++
              [.mkdirAll (filepathJoin [env.getenv PATH, e.keyName]) 0o755] }, some err)
      | none =>
        match (env.write s.nWrites).err with
        | some err =>
          ({ e with path := filepathJoin [env.getenv PATH, e.keyName] },
            (WriteCache env { e with path := filepathJoin [env.getenv PATH, e.keyName] }
              (initialContentSpec e.configType (env.get e.keyName))
              { s with trace := s.trace ++
                  [.mkdirAll (filepathJoin [env.getenv PATH, e.keyName]) 0o755, .goStartWatch,
                   .clientGet e.keyName] }).1, some err)
        | none =>
          NewViper env { e with path := filepathJoin [env.getenv PATH, e.keyName] }
            (WriteCache env { e with path := filepathJoin [env.getenv PATH, e.keyName] }
              (initialContentSpec e.configType (env.get e.keyName))
              { s with trace := s.trace ++
                  [.mkdirAll (filepathJoin [env.getenv PATH, e.keyName]) 0o755, .goStartWatch,
                   .clientGet e.keyName] }).1 := by
  cases hmk : env.mkdirAll (filepathJoin [env.getenv PATH, e.keyName]) with
  | some err => simp [SetWatcher, hmk]
  | none =>
    simp only [SetWatcher, hmk, EtcdGet_content, EtcdGet_trace, triple_eta, WriteCache_err,
      List.append_assoc, List.singleton_append, List.cons_append, List.nil_append]
    cases hw : (env.write s.nWrites).err with
    | some err => simp [hw]
    | none =>
      simp only [hw]
      generalize NewViper env _ _ = n
      rcases n with ⟨a, b, _ | c⟩ <;> rfl

/-- C2: when the cache directory can be made, `SetWatcher` makes exactly one cache write, and
its content is the payload `EtcdGet` returned when that call succeeded with a non-empty
payload; otherwise (the get failed, no key was found, or the stored value is empty) it is
`{}` when the format is `json` and the empty byte string for every other format. -/
theorem SetWatcher_initial_content (env : Env) (e : EtcdConfig) (s : Sys)
    (hmk : env.mkdirAll (filepathJoin [env.getenv PATH, e.keyName]) = none) :
    ∃ content,
      writesIn (SetWatcher env e s).2.1.trace =
        writesIn s.trace ++
          [(cacheFile { e with path := filepathJoin [env.getenv PATH, e.keyName] }, content)]
      ∧ content = initialContentSpec e.configType (env.get e.keyName)
      ∧ (∀ payload, EtcdGet env e s = (payload, none, (EtcdGet env e s).2.2) → payload ≠ [] →
          content = payload)
      ∧ (((EtcdGet env e s).2.1 ≠ none ∨ (EtcdGet env e s).1 = []) →
          content = if e.configType = str "json" then [123, 125] else [])
      ∧ (∀ err, env.get e.keyName = .error err → (EtcdGet env e s).2.1 = some err)
      ∧ (env.get e.keyName = .ok [] → (EtcdGet env e s).1 = [] ∧ (EtcdGet env e s).2.1 = none) := by
  refine ⟨initialContentSpec e.configType (env.get e.keyName), ?_, rfl, ?_, ?_, ?_, ?_⟩
  · rw [SetWatcher_eq]
    simp only [hmk]
    cases hw : (env.write s.nWrites).err with
    | some err => simp [WriteCache_trace, writesIn_append, writesIn]
    | none =>
      simp only []
      rw [(NewViper_sys env _ _).2.2, WriteCache_trace, writesIn_append, writesIn_append]
      simp [writesIn]
  · intro payload hp hne
    have h1 : (EtcdGet env e s).1 = payload := by rw [hp]
    have h2 : (EtcdGet env e s).2.1 = none := by rw [hp]
    rw [← EtcdGet_content env e s e.configType, h1, h2]
    simp [hne]
  · intro h
    rw [← EtcdGet_content env e s e.configType]
    rcases h with h | h
    · simp [h, str]
    · simp [h, str]
  · intro err h
    simp [EtcdGet, h]
  · intro h
    simp [EtcdGet, h, str]


/-- C5: `SetWatcher` returns the error of the first of directory creation, initial cache
write and initial parse that fails, and stops there: after a failed directory creation the
only call made is `MkdirAll` (no fetch, no cache write, the file system is untouched); after
a failed write no `ReadInConfig` is made; after a failed parse the typed store of the handle
is what it was before (unset on a fresh handle).  When the three steps succeed it returns no
error and sets the typed store, whatever the initial fetch returned. -/
theorem SetWatcher_errors (env : Env) (e : EtcdConfig) (s : Sys) :
    let p := filepathJoin [env.getenv PATH, e.keyName]
    let e1 : EtcdConfig := { e with path := p }
    let content := initialContentSpec e.configType (env.get e.keyName)
    let fs1 := s.fs.write (cacheFile e1) content
    let r := SetWatcher env e s
    (∀ err, env.mkdirAll p = some err →
        r.2.2 = some err ∧ r.2.1.trace = s.trace ++ [.mkdirAll p 0o755] ∧ r.2.1.fs = s.fs
        ∧ r.1.v = e.v)
    ∧ (∀ err, env.mkdirAll p = none → (env.write s.nWrites).err = some err →
        r.2.2 = some err
        ∧ r.2.1.trace = s.trace ++ [.mkdirAll p 0o755, .goStartWatch, .clientGet e.keyName,
            .writeFile (cacheFile e1) content 0o644]
        ∧ readsConfig r.2.1.trace = readsConfig s.trace
        ∧ r.1.v = e.v)
    ∧ (∀ err, env.mkdirAll p = none → env.write s.nWrites = .ok →
        env.readInConfig ⟨FN, e.configType, p, false⟩ fs1 = some err →
        r.2.2 = some err ∧ r.1.v = e.v ∧ (e.v = none → r.1.v = none))
    ∧ (env.mkdirAll p = none → env.write s.nWrites = .ok →
        env.readInConfig ⟨FN, e.configType, p, false⟩ fs1 = none →
        r.2.2 = none ∧ r.1.v = some ⟨FN, e.configType, p, true⟩) := by
  intro p e1 content fs1 r
  have hr : r = SetWatcher env e s := rfl
  rw [SetWatcher_eq] at hr
  refine ⟨?_, ?_, ?_, ?_⟩
  · intro err hmk
    simp only [hmk] at hr
    simp [hr]
  · intro err hmk hw
    simp only [hmk, hw] at hr
    simp [hr, WriteCache_trace, readsConfig_append, readsConfig, e1, p, content]
  · intro err hmk hw hp
    have hfs : (WriteCache env e1 content
        { s with trace := s.trace ++ [.mkdirAll p 0o755, .goStartWatch,
            .clientGet e.keyName] }).1.fs = fs1 := by
      rw [WriteCache_fs]
      simp [hw, ioutilWriteFile, fs1]
    simp only [hmk, hw, WriteOutcome.err] at hr
    have h1 := NewViper_err env e1 (WriteCache env e1 content
        { s with trace := s.trace ++ [.mkdirAll p 0o755, .goStartWatch,
            .clientGet e.keyName] }).1
    have h2 := NewViper_handle env e1 (WriteCache env e1 content
        { s with trace := s.trace ++ [.mkdirAll p 0o755, .goStartWatch,
            .clientGet e.keyName] }).1
    rw [hfs] at h1 h2
    simp only [e1] at h1 h2 hp
    rw [hp] at h1 h2
    rw [hr]
    refine ⟨h1, ?_, ?_⟩
    · rw [h2]
    · intro hv
      rw [h2]
      exact hv
  · intro hmk hw hp
    have hfs : (WriteCache env e1 content
        { s with trace := s.trace ++ [.mkdirAll p 0o755, .goStartWatch,
            .clientGet e.keyName] }).1.fs = fs1 := by
      rw [WriteCache_fs]
      simp [hw, ioutilWriteFile, fs1]
    simp only [hmk, hw, WriteOutcome.err] at hr
    have h1 := NewViper_err env e1 (WriteCache env e1 content
        { s with trace := s.trace ++ [.mkdirAll p 0o755, .goStartWatch,
            .clientGet e.keyName] }).1
    have h2 := NewViper_handle env e1 (WriteCache env e1 content
        { s with trace := s.trace ++ [.mkdirAll p 0o755, .goStartWatch,
            .clientGet e.keyName] }).1
    rw [hfs] at h1 h2
    simp only [e1] at h1 h2 hp
    rw [hp] at h1 h2
    rw [hr]
    exact ⟨h1, by rw [h2]⟩

/-! ## The constructor and `EtcdPut` -/

theorem NewClient_ok (endpoints : List GoString) (password group configType : GoString)
    (prefixes : List GoString) :
    ∃ e, NewClient none endpoints password group configType prefixes = .ok e := by
  unfold NewClient
  exact ⟨_, rfl⟩

theorem NewClient_fields (dialErr : Option GoError) (endpoints : List GoString)
    (password group configType : GoString) (prefixes : List GoString) (e : EtcdConfig)
    (h : NewClient dialErr endpoints password group configType prefixes = .ok e) :
    e.keyName = e.keyPrefix ++ str "/" ++ e.group ++ str "/" ++ e.configType
    ∧ e.group = group ∧ e.configType = configType
    ∧ e.keyPrefix = prefixes.headD (str "/hub-config/etcd") ∧ e.v = none ∧ e.path = [] := by
  unfold NewClient at h
  cases dialErr with
  | some err => simp at h
  | none =>
    cases prefixes with
    | nil =>
      simp only [Except.ok.injEq] at h
      subst h
      by_cases hp : password = [] <;> simp [hp, EtcdConfig.zero]
    | cons p rest =>
      simp only [Except.ok.injEq] at h
      subst h
      by_cases hp : password = [] <;> simp [hp, EtcdConfig.zero]

/-- C6: a handle built by `NewClient` has the remote key `pfx/group/format`, where `pfx` is
the first of the optional prefix arguments when there is one (the others are ignored) and
`/hub-config/etcd` when there is none; the handle stores this group, format and prefix. -/
theorem NewClient_key (dialErr : Option GoError) (endpoints : List GoString)
    (password group configType : GoString) (prefixes : List GoString) (e : EtcdConfig)
    (h : NewClient dialErr endpoints password group configType prefixes = .ok e) :
    e.keyName = prefixes.headD (str "/hub-config/etcd") ++ str "/" ++ group ++ str "/" ++ configType
    ∧ e.group = group ∧ e.configType = configType
    ∧ e.keyPrefix = prefixes.headD (str "/hub-config/etcd")
    ∧ (prefixes = [] → e.keyPrefix = str "/hub-config/etcd")
    ∧ (∀ p rest, prefixes = p :: rest → e.keyPrefix = p) := by
  obtain ⟨hk, hg, ht, hp, -, -⟩ := NewClient_fields _ _ _ _ _ _ _ h
  refine ⟨by rw [hk, hp, hg, ht], hg, ht, hp, ?_, ?_⟩
  · intro hnil
    rw [hp, hnil]
    rfl
  · intro p rest hcons
    rw [hp, hcons]
    rfl

/-- C8: `EtcdPut(val, group, format)` rebuilds the remote key of the handle to `pfx/g/t`,
where `g` is the group argument, or the stored group when the argument is empty, and `t` the
format argument, or the stored format when the argument is empty; the one call it makes is
the put of `val` to that key, and the handle holds the rebuilt key whatever the put returns. -/
theorem EtcdPut_key (env : Env) (e : EtcdConfig) (val group configType : GoString) (s : Sys) :
    (EtcdPut env e val group configType s).1.keyName =
        e.keyPrefix ++ str "/" ++ (if group = [] then e.group else group) ++ str "/" ++
          (if configType = [] then e.configType else configType)
    ∧ (EtcdPut env e val group configType s).2.1.trace =
        s.trace ++ [.clientPut (e.keyPrefix ++ str "/" ++ (if group = [] then e.group else group)
          ++ str "/" ++ (if configType = [] then e.configType else configType)) val]
    ∧ (EtcdPut env e val group configType s).2.2 =
        env.put (e.keyPrefix ++ str "/" ++ (if group = [] then e.group else group) ++ str "/" ++
          (if configType = [] then e.configType else configType)) val := by
  simp [EtcdPut]

/-- C9: `EtcdPut` changes the remote key of the handle and nothing else: group, format,
prefix, cache path (and every other field) are as before, so `WriteCache` keeps writing the
same file, and the file system is not touched.  An override is not kept: after any
`EtcdPut(v1, g, t)`, an `EtcdPut(v2, "", "")` puts to `pfx/group/format` built from the stored
group and format, which is the key `NewClient` built; it differs from the overridden key
whenever that one differs from it. -/
theorem EtcdPut_frame (env : Env) (e : EtcdConfig) (v1 g t : GoString) (s : Sys) :
    (EtcdPut env e v1 g t s).1 = { e with keyName := (EtcdPut env e v1 g t s).1.keyName }
    ∧ (EtcdPut env e v1 g t s).1.group = e.group
    ∧ (EtcdPut env e v1 g t s).1.configType = e.configType
    ∧ (EtcdPut env e v1 g t s).1.keyPrefix = e.keyPrefix
    ∧ (EtcdPut env e v1 g t s).1.path = e.path
    ∧ cacheFile (EtcdPut env e v1 g t s).1 = cacheFile e
    ∧ (EtcdPut env e v1 g t s).2.1.fs = s.fs
    ∧ (∀ content s3, writesIn (WriteCache env (EtcdPut env e v1 g t s).1 content s3).1.trace =
        writesIn s3.trace ++ [(cacheFile e, content)])
    ∧ (∀ env2 v2 s2,
        (EtcdPut env2 (EtcdPut env e v1 g t s).1 v2 [] [] s2).2.1.trace =
          s2.trace ++ [.clientPut (e.keyPrefix ++ str "/" ++ e.group ++ str "/" ++ e.configType) v2]
        ∧ ((EtcdPut env e v1 g t s).1.keyName ≠
              e.keyPrefix ++ str "/" ++ e.group ++ str "/" ++ e.configType →
            (EtcdPut env2 (EtcdPut env e v1 g t s).1 v2 [] [] s2).1.keyName ≠
              (EtcdPut env e v1 g t s).1.keyName))
    ∧ (∀ dialErr endpoints password prefixes group0 configType0 env2 v2 s2,
        NewClient dialErr endpoints password group0 configType0 prefixes = .ok e →
        (EtcdPut env2 (EtcdPut env e v1 g t s).1 v2 [] [] s2).2.1.trace =
          s2.trace ++ [.clientPut e.keyName v2]) := by
  refine ⟨rfl, rfl, rfl, rfl, rfl, rfl, rfl, ?_, ?_, ?_⟩
  · intro content s3
    rw [WriteCache_trace, writesIn_append]
    simp [writesIn, cacheFile, EtcdPut]
  · intro env2 v2 s2
    refine ⟨by simp [EtcdPut], ?_⟩
    intro hne heq
    apply hne
    rw [← heq]
    simp [EtcdPut]
  · intro dialErr endpoints password prefixes group0 configType0 env2 v2 s2 h
    obtain ⟨hk, -, -, -, -, -⟩ := NewClient_fields _ _ _ _ _ _ _ h
    simp [EtcdPut, hk]


/-! ## The watch loop -/

theorem isCreate_or_isModify (ev : Event) :
    (ev.IsCreate || ev.IsModify) = true ↔ ev.Typ = EventTypePut := by
  unfold Event.IsCreate Event.IsModify
  by_cases h : ev.Typ = EventTypePut
  · by_cases h2 : ev.Kv.CreateRevision = ev.Kv.ModRevision <;> simp [h, h2]
  · simp [h]

theorem foldl_watchBody (env : Env) (e : EtcdConfig) (res : List Event) (s : Sys) :
    res.foldl (watchBody env e) s = writeEach env e (actionableValues [res]) s := by
  induction res generalizing s with
  | nil => rfl
  | cons ev rest ih =>
    rw [List.foldl_cons, ih]
    by_cases h : (ev.IsCreate || ev.IsModify) = true
    · simp [watchBody, h, actionableValues, writeEach, List.filter_cons]
    · simp [watchBody, h, actionableValues, writeEach, List.filter_cons]

theorem writeEach_append (env : Env) (e : EtcdConfig) (a b : List GoString) (s : Sys) :
    writeEach env e (a ++ b) s = writeEach env e b (writeEach env e a s) := by
  simp [writeEach, List.foldl_append]

theorem actionableValues_cons (res : List Event) (watcher : List (List Event)) :
    actionableValues (res :: watcher) = actionableValues [res] ++ actionableValues watcher := by
  simp [actionableValues]

theorem watchLoop_eq (env : Env) (e : EtcdConfig) (watcher : List (List Event)) (s : Sys) :
    watchLoop env e watcher s = writeEach env e (actionableValues watcher) s := by
  induction watcher generalizing s with
  | nil => rfl
  | cons res rest ih =>
    rw [actionableValues_cons, writeEach_append, ← foldl_watchBody, ← ih]
    rfl

theorem writeEach_trace (env : Env) (e : EtcdConfig) (vals : List GoString) (s : Sys) :
    (writeEach env e vals s).trace =
      s.trace ++ vals.map (fun v => .writeFile (cacheFile e) v 0o644) := by
  induction vals generalizing s with
  | nil => simp [writeEach]
  | cons v vs ih =>
    have : writeEach env e (v :: vs) s = writeEach env e vs (WriteCache env e v s).1 := rfl
    rw [this, ih, WriteCache_trace]
    simp

theorem writeEach_nWrites (env : Env) (e : EtcdConfig) (vals : List GoString) (s : Sys) :
    (writeEach env e vals s).nWrites = s.nWrites + vals.length := by
  induction vals generalizing s with
  | nil => simp [writeEach]
  | cons v vs ih =>
    have : writeEach env e (v :: vs) s = writeEach env e vs (WriteCache env e v s).1 := rfl
    rw [this, ih, WriteCache_nWrites]
    simp
    omega

theorem ioutilWriteFile_other (fs : FS) (name data : GoString) (o : WriteOutcome)
    (n : GoString) (h : n ≠ name) : (ioutilWriteFile fs name data o).1 n = fs n := by
  cases o <;> simp [ioutilWriteFile, FS.write, h]

theorem writeEach_fs_other (env : Env) (e : EtcdConfig) (vals : List GoString) (s : Sys)
    (n : GoString) (h : n ≠ cacheFile e) : (writeEach env e vals s).fs n = s.fs n := by
  induction vals generalizing s with
  | nil => simp [writeEach]
  | cons v vs ih =>
    have : writeEach env e (v :: vs) s = writeEach env e vs (WriteCache env e v s).1 := rfl
    rw [this, ih, WriteCache_fs, ioutilWriteFile_other _ _ _ _ _ h]

theorem lastWrittenOk_eq_none (write : Nat → WriteOutcome) (n : Nat) (vals : List GoString) :
    lastWrittenOk write n vals = none ↔ ∀ j, j < vals.length → write (n + j) ≠ .ok := by
  induction vals generalizing n with
  | nil => simp [lastWrittenOk]
  | cons v vs ih =>
    unfold lastWrittenOk
    cases h : lastWrittenOk write (n + 1) vs with
    | some w =>
      simp only [reduceCtorEq, false_iff]
      intro hall
      have := (ih (n + 1)).not.1 (by simp [h])
      push_neg at this
      obtain ⟨j, hj, hok⟩ := this
      have := hall (j + 1) (by simp; omega)
      rw [show n + (j + 1) = n + 1 + j by omega] at this
      exact this hok
    | none =>
      have hrest := (ih (n + 1)).1 h
      by_cases hw : write n = .ok
      · simp only [hw, if_true, reduceCtorEq, false_iff]
        intro hall
        exact hall 0 (by simp) (by simpa using hw)
      · simp only [hw, if_false, true_iff]
        intro j hj
        cases j with
        | zero => simpa using hw
        | succ k =>
          rw [show n + (k + 1) = n + 1 + k by omega]
          exact hrest k (by simpa using hj)

theorem writeEach_fs_cache (env : Env) (e : EtcdConfig) (vals : List GoString) (s : Sys)
    (h : ∀ i, i < vals.length → ∀ k err, env.write (s.nWrites + i) = .writeFailed k err →
      ∃ j, i < j ∧ j < vals.length ∧ env.write (s.nWrites + j) = .ok) :
    (writeEach env e vals s).fs (cacheFile e) =
      claimedCache env.write s.nWrites vals (s.fs (cacheFile e)) := by
  induction vals generalizing s with
  | nil => simp [writeEach, claimedCache, lastWrittenOk]
  | cons v vs ih =>
    have hstep : writeEach env e (v :: vs) s = writeEach env e vs (WriteCache env e v s).1 := rfl
    have hn := WriteCache_nWrites env e v s
    rw [hstep, ih]
    · rw [hn]
      unfold claimedCache
      conv_rhs => unfold lastWrittenOk
      cases hl : lastWrittenOk env.write (s.nWrites + 1) vs with
      | some w => rfl
      | none =>
        simp only
        rw [WriteCache_fs]
        cases hw : env.write s.nWrites with
        | ok => simp [ioutilWriteFile, FS.write]
        | openFailed err => simp [ioutilWriteFile]
        | writeFailed k err =>
          obtain ⟨j, hj0, hj, hok⟩ := h 0 (by simp) k err (by simpa using hw)
          have hnone := (lastWrittenOk_eq_none env.write (s.nWrites + 1) vs).1 hl (j - 1)
            (by simp at hj; omega)
          rw [show s.nWrites + 1 + (j - 1) = s.nWrites + j by omega] at hnone
          exact absurd hok hnone
    · intro i hi k err hf
      rw [hn] at hf
      obtain ⟨j, hij, hj, hok⟩ := h (i + 1) (by simp; omega) k err
        (by rw [show s.nWrites + (i + 1) = s.nWrites + 1 + i by omega]; exact hf)
      refine ⟨j - 1, by omega, by simp at hj; omega, ?_⟩
      rw [hn, show s.nWrites + 1 + (j - 1) = s.nWrites + j by omega]
      exact hok


/-- C4, as amended: for every sequence of batches and whatever the writes return,
`startWatch` calls `WriteCache` once for each create or modify event, in delivery order and
with the value of the event, and for no other event (create or modify means a put); a failed
write does not stop the loop.  No other file is touched.  The cache file ends up holding the
value of the last create or modify event whose write succeeded, and is unchanged when there
is no such event, provided every write that failed after the file was opened is followed by
a write that succeeds. -/
theorem startWatch_writes (env : Env) (e : EtcdConfig) (s : Sys) :
    (startWatch env e s).1.trace =
        s.trace ++ [.clientWatch e.keyName] ++
          (actionableValues (env.watch e.keyName)).map (fun v => .writeFile (cacheFile e) v 0o644)
    ∧ (∀ ev : Event, (ev.IsCreate || ev.IsModify) = true ↔ ev.Typ = EventTypePut)
    ∧ (startWatch env e s).2 = none
    ∧ (∀ n, n ≠ cacheFile e → (startWatch env e s).1.fs n = s.fs n)
    ∧ ((∀ i, i < (actionableValues (env.watch e.keyName)).length →
          ∀ k err, env.write (s.nWrites + i) = .writeFailed k err →
          ∃ j, i < j ∧ j < (actionableValues (env.watch e.keyName)).length
            ∧ env.write (s.nWrites + j) = .ok) →
        (startWatch env e s).1.fs (cacheFile e) =
          claimedCache env.write s.nWrites (actionableValues (env.watch e.keyName))
            (s.fs (cacheFile e))) := by
  refine ⟨?_, isCreate_or_isModify, rfl, ?_, ?_⟩
  all_goals unfold startWatch
  all_goals simp only [watchLoop_eq]
  · rw [writeEach_trace]
  · intro n hn
    rw [writeEach_fs_other _ _ _ _ _ hn]
  · intro h
    exact writeEach_fs_cache env e _ _ h

/-- C4, the counterexample: after `SetWatcher` on the handle of the test, the watcher
delivers a put of `abc` and a put of `xyz`; the write of `abc` succeeds and the write of
`xyz` fails after the file was truncated.  The last write that succeeded is that of `abc`,
and the cache file ends up empty. -/
theorem startWatch_cache_not_last_ok :
    ¬ ∀ (env : Env) (e : EtcdConfig) (s : Sys),
      (startWatch env e s).1.fs (cacheFile e) =
        claimedCache env.write s.nWrites (actionableValues (env.watch e.keyName))
          (s.fs (cacheFile e)) := by
  intro h
  have h1 := h diskFullEnv (setupHandle diskFullEnv) (setupSys diskFullEnv)
  have h2 : (startWatch diskFullEnv (setupHandle diskFullEnv) (setupSys diskFullEnv)).1.fs
      (cacheFile (setupHandle diskFullEnv)) = some [] := by
    decide
  have h3 : claimedCache diskFullEnv.write (setupSys diskFullEnv).nWrites
      (actionableValues (diskFullEnv.watch (setupHandle diskFullEnv).keyName))
      ((setupSys diskFullEnv).fs (cacheFile (setupHandle diskFullEnv))) = some (str "abc") := by
    decide
  rw [h2, h3] at h1
  exact absurd h1 (by decide)

theorem startWatch_writes_witness :
    (startWatch retryEnv (setupHandle retryEnv) (setupSys retryEnv)).1.fs
        (cacheFile (setupHandle retryEnv)) =
      claimedCache retryEnv.write (setupSys retryEnv).nWrites
        (actionableValues (retryEnv.watch (setupHandle retryEnv).keyName))
        ((setupSys retryEnv).fs (cacheFile (setupHandle retryEnv)))
    ∧ claimedCache retryEnv.write (setupSys retryEnv).nWrites
        (actionableValues (retryEnv.watch (setupHandle retryEnv).keyName))
        ((setupSys retryEnv).fs (cacheFile (setupHandle retryEnv))) = some (str "xyz") :=
  ⟨(startWatch_writes retryEnv (setupHandle retryEnv) (setupSys retryEnv)).2.2.2.2 (by
      intro i hi k err hf
      have hlen : (actionableValues (retryEnv.watch (setupHandle retryEnv).keyName)).length = 2 := by
        decide
      have hn : (setupSys retryEnv).nWrites = 1 := by decide
      rw [hlen] at hi ⊢
      rw [hn] at hf ⊢
      refine ⟨1, ?_, by omega, by decide⟩
      rcases Nat.lt_or_ge 0 i with h | h
      · have hi1 : i = 1 := by omega
        subst hi1
        have hok : retryEnv.write (1 + 1) = .ok := by decide
        rw [hok] at hf
        cases hf
      · omega), by decide⟩

/-! ## A put followed by its event -/

theorem watchChan_single (ks : GoString) (ev : Event) :
    watchChan ks [[ev]] = if ev.Kv.Key = ks then [[ev]] else [] := by
  by_cases h : ev.Kv.Key = ks <;> simp [watchChan, h]

/-- C3: for every value `v` and every group and format argument: after `EtcdPut(v, group,
format)` returned no error, when the put event of the written key with value `v` is what the
log of the store holds, the watch loop subscribed to the key `ks` and the cache write
succeeds, then, if `ks` is the key `EtcdPut` wrote, the cache file holds exactly `v` after the
loop handled the event (and if `ks` is another key the event is not delivered and nothing is
written).  The keys agree when both arguments are empty and the handle still has the key
`pfx/group/format` that `NewClient` built. -/
theorem EtcdPut_event_updates_cache (env : Env) (e : EtcdConfig) (v group configType : GoString)
    (s : Sys) (ev : Event) (ks : GoString)
    (_hput : (EtcdPut env e v group configType s).2.2 = none)
    (hev : (ev.IsCreate || ev.IsModify) = true)
    (hkey : ev.Kv.Key = (EtcdPut env e v group configType s).1.keyName)
    (hval : ev.Kv.Value = v)
    (hw : env.write (EtcdPut env e v group configType s).2.1.nWrites = .ok) :
    (ks = (EtcdPut env e v group configType s).1.keyName →
      (watchLoop env (EtcdPut env e v group configType s).1 (watchChan ks [[ev]])
        (EtcdPut env e v group configType s).2.1).fs (cacheFile e) = some v)
    ∧ (ks ≠ (EtcdPut env e v group configType s).1.keyName →
      (watchLoop env (EtcdPut env e v group configType s).1 (watchChan ks [[ev]])
        (EtcdPut env e v group configType s).2.1).fs = s.fs)
    ∧ (group = [] → configType = [] →
        e.keyName = e.keyPrefix ++ str "/" ++ e.group ++ str "/" ++ e.configType →
        (EtcdPut env e v group configType s).1.keyName = e.keyName) := by
  refine ⟨?_, ?_, ?_⟩
  · intro hks
    rw [watchChan_single, if_pos (by rw [hkey, hks])]
    simp only [watchLoop, List.foldl_cons, List.foldl_nil, watchBody, hev, if_true]
    rw [WriteCache_fs, hw, hval]
    simp [ioutilWriteFile, FS.write, cacheFile, EtcdPut]
  · intro hks
    rw [watchChan_single, if_neg (by rw [hkey]; exact fun h => hks h.symm)]
    rfl
  · intro hg ht hk
    simp [EtcdPut, hg, ht, hk]

theorem EtcdPut_event_updates_cache_witness :
    (watchLoop quietEnv
      (EtcdPut quietEnv (setupHandle quietEnv) (str "\x7b\"test\":123\x7d") [] []
        (setupSys quietEnv)).1
      (watchChan (setupHandle quietEnv).keyName
        [[putEvent (setupHandle quietEnv).keyName (str "\x7b\"test\":123\x7d")]])
      (EtcdPut quietEnv (setupHandle quietEnv) (str "\x7b\"test\":123\x7d") [] []
        (setupSys quietEnv)).2.1).fs
        (cacheFile (setupHandle quietEnv)) = some (str "\x7b\"test\":123\x7d") :=
  (EtcdPut_event_updates_cache quietEnv (setupHandle quietEnv) (str "\x7b\"test\":123\x7d") [] []
    (setupSys quietEnv)
    (putEvent (setupHandle quietEnv).keyName (str "\x7b\"test\":123\x7d"))
    (setupHandle quietEnv).keyName
    (by decide) (by decide) (by decide) (by decide) (by decide)).1 (by decide)

/-! ## The configuration entry among the services -/

/-- C10, as amended: for every handle whose remote key is `pfx/group/format` (as `NewClient`
builds it), whose group is non-empty and without `'/'` and whose format is without `'/'`: if
the prefix scan returns the pair of the remote key of the handle and `payload`, the result
map has the group as a service name and `payload` is among the values of that service. -/
theorem GetDiscoverServices_own_entry (env : Env) (e : EtcdConfig) (kvs : List KeyValue)
    (payload : GoString)
    (hkey : e.keyName = e.keyPrefix ++ str "/" ++ e.group ++ str "/" ++ e.configType)
    (_hg : e.group ≠ []) (hgs : slash ∉ e.group) (hts : slash ∉ e.configType)
    (hscan : env.scan e.keyPrefix = .ok kvs)
    (hmem : ∃ kv ∈ kvs, kv.Key = e.keyName ∧ kv.Value = payload) :
    ∃ m vals, GetDiscoverServices env e = .ok m ∧ m e.group = some vals ∧ payload ∈ vals := by
  obtain ⟨kv, hkv, hk, hv⟩ := hmem
  have hsvc : serviceOfKey kv.Key = some e.group := by
    rw [hk, hkey]
    have := serviceOfKey_append e.keyPrefix e.group e.configType hgs hts
    simpa [str, slash] using this
  have hin : payload ∈ valuesOfService kvs e.group := by
    unfold valuesOfService
    rw [List.mem_map]
    exact ⟨kv, by simp [List.mem_filter, hkv, hsvc], hv⟩
  refine ⟨servicesSpec kvs, valuesOfService kvs e.group,
    GetDiscoverServices_ok env e kvs hscan, ?_, hin⟩
  unfold servicesSpec
  rw [if_neg (List.ne_nil_of_mem hin)]

theorem GetDiscoverServices_own_entry_witness :
    ∃ m vals, GetDiscoverServices ownEntryEnv testHandle = .ok m
      ∧ m (str "test") = some vals ∧ str "\x7b\"a\":1\x7d" ∈ vals :=
  GetDiscoverServices_own_entry ownEntryEnv testHandle
    [⟨str "/hub-config/etcd/test/json", str "\x7b\"a\":1\x7d", 1, 1⟩] (str "\x7b\"a\":1\x7d")
    (by decide) (by decide) (by decide) (by decide) rfl
    ⟨⟨str "/hub-config/etcd/test/json", str "\x7b\"a\":1\x7d", 1, 1⟩, by decide, by decide, rfl⟩

/-- C10, the counterexample: the handle of the test after `EtcdPut("x", "other", "")` has
group `test`, format `json` and remote key `/hub-config/etcd/other/json`; when the scan
returns the pair of that key and `x`, the result map holds `other` and not the group `test`. -/
theorem GetDiscoverServices_own_entry_fails :
    ¬ ∀ (env : Env) (e : EtcdConfig) (kvs : List KeyValue) (payload : GoString),
      e.group ≠ [] → slash ∉ e.group → slash ∉ e.configType →
      env.scan e.keyPrefix = .ok kvs →
      (∃ kv ∈ kvs, kv.Key = e.keyName ∧ kv.Value = payload) →
      ∃ m vals, GetDiscoverServices env e = .ok m ∧ m e.group = some vals ∧ payload ∈ vals := by
  intro h
  obtain ⟨m, vals, hm, hg, -⟩ := h overrideEnv overriddenHandle
    [⟨str "/hub-config/etcd/other/json", str "x", 1, 1⟩] (str "x")
    (by decide) (by decide) (by decide) rfl
    ⟨⟨str "/hub-config/etcd/other/json", str "x", 1, 1⟩, by decide, by decide, rfl⟩
  rw [GetDiscoverServices_ok overrideEnv overriddenHandle _ rfl] at hm
  simp only [Except.ok.injEq] at hm
  rw [← hm] at hg
  have hnone : servicesSpec [⟨str "/hub-config/etcd/other/json", str "x", 1, 1⟩]
      overriddenHandle.group = none := by decide
  rw [hnone] at hg
  cases hg

/-! ## Instances -/

theorem GetDiscoverServices_spec_witness :
    ∃ m, GetDiscoverServices discoverEnv testHandle = .ok m
      ∧ m (str "svcA") = some [str "v1", str "v2"]
      ∧ m (str "svcB") = some [str "v3"]
      ∧ ∀ s, s ≠ str "svcA" → s ≠ str "svcB" → m s = none :=
  (GetDiscoverServices_spec discoverEnv testHandle
    [⟨str "/services/svcA/1", str "v1", 1, 1⟩, ⟨str "/services/svcA/2", str "v2", 2, 2⟩,
     ⟨str "/services/svcB/1", str "v3", 3, 3⟩] rfl).2.2.2 (str "/services") (by decide)

theorem SetWatcher_initial_content_witness :
    ∃ content,
      writesIn (SetWatcher offlineEnv testHandle emptySys).2.1.trace =
        [(str "/root/hub-config/etcd/test/json/application.json", content)]
      ∧ content = str "\x7b\x7d" := by
  obtain ⟨content, h1, h2, -⟩ :=
    SetWatcher_initial_content offlineEnv testHandle emptySys (by decide)
  refine ⟨content, ?_, ?_⟩
  · rw [h1, h2]
    decide
  · rw [h2]
    decide

theorem SetWatcher_errors_witness :
    ((SetWatcher noDirEnv testHandle emptySys).2.2 = some "permission denied"
      ∧ writesIn (SetWatcher noDirEnv testHandle emptySys).2.1.trace = [])
    ∧ ((SetWatcher readOnlyEnv testHandle emptySys).2.2 = some "read-only file system"
      ∧ readsConfig (SetWatcher readOnlyEnv testHandle emptySys).2.1.trace = false)
    ∧ ((SetWatcher badParseEnv testHandle emptySys).2.2 =
        some "While parsing config: unexpected end of JSON input"
      ∧ (SetWatcher badParseEnv testHandle emptySys).1.v = none)
    ∧ (SetWatcher offlineEnv testHandle emptySys).2.2 = none := by
  have h1 := (SetWatcher_errors noDirEnv testHandle emptySys).1 "permission denied" (by decide)
  have h2 := (SetWatcher_errors readOnlyEnv testHandle emptySys).2.1 "read-only file system"
    (by decide) (by decide)
  have h3 := (SetWatcher_errors badParseEnv testHandle emptySys).2.2.1
    "While parsing config: unexpected end of JSON input" (by decide) (by decide) rfl
  have h4 := (SetWatcher_errors offlineEnv testHandle emptySys).2.2.2 (by decide) (by decide) rfl
  refine ⟨⟨h1.1, ?_⟩, ⟨h2.1, ?_⟩, ⟨h3.1, h3.2.2 (by decide)⟩, h4.1⟩
  · rw [h1.2.1]
    decide
  · rw [h2.2.2.1]
    decide

theorem NewClient_key_witness :
    testHandle.keyName = str "/hub-config/etcd/test/json"
    ∧ (∀ e, NewClient none [] [] (str "g") (str "yaml") [str "/a", str "/b"] = .ok e →
        e.keyName = str "/a/g/yaml") :=
  ⟨by
    have h := (NewClient_key none [str "http://27.0.0.1:2379"] (str "") (str "test")
      (str "json") [] testHandle rfl).1
    rw [h]
    decide,
   fun e he => by
    have h := (NewClient_key none [] [] (str "g") (str "yaml") [str "/a", str "/b"] e he).1
    rw [h]
    decide⟩

theorem EtcdPut_frame_witness :
    (EtcdPut quietEnv (EtcdPut quietEnv testHandle (str "x") (str "other") (str "yaml")
        emptySys).1 (str "y") [] [] emptySys).2.1.trace =
      [.clientPut (str "/hub-config/etcd/test/json") (str "y")] := by
  have h := (EtcdPut_frame quietEnv testHandle (str "x") (str "other") (str "yaml")
    emptySys).2.2.2.2.2.2.2.2.2 none [str "http://27.0.0.1:2379"] (str "") [] (str "test")
    (str "json") quietEnv (str "y") emptySys rfl
  rw [h]
  decide


/-! ## Paths of plain elements -/

theorem absPath_append (a b : List GoString) : absPath (a ++ b) = absPath a ++ absPath b := by
  induction a with
  | nil => rfl
  | cons x xs ih => simp [absPath, ih]

theorem stringsSplit_elem_absPath (seg : GoString) (l : List GoString) (hseg : slash ∉ seg)
    (hl : ∀ x ∈ l, slash ∉ x) : stringsSplit slash (seg ++ absPath l) = seg :: l := by
  induction l generalizing seg with
  | nil => simpa [absPath] using stringsSplit_of_not_mem slash seg hseg
  | cons x xs ih =>
    rw [absPath, stringsSplit_append, stringsSplit_of_not_mem slash seg hseg,
      ih x (hl x (by simp)) (fun y hy => hl y (by simp [hy]))]
    rfl

theorem cleanStep_nil (rooted : Bool) (stack : List GoString) :
    cleanStep rooted stack [] = stack := by
  simp [cleanStep]

theorem cleanStep_plain (rooted : Bool) (stack : List GoString) (seg : GoString)
    (h : plainElem seg) : cleanStep rooted stack seg = seg :: stack := by
  obtain ⟨h1, -, h3, h4⟩ := h
  simp [cleanStep, h1, h3, h4]

theorem foldl_cleanStep (rooted : Bool) (l stack : List GoString)
    (hl : ∀ x ∈ l, x = [] ∨ plainElem x) :
    l.foldl (cleanStep rooted) stack = (l.filter (fun x => x ≠ [])).reverse ++ stack := by
  induction l generalizing stack with
  | nil => rfl
  | cons x xs ih =>
    rw [List.foldl_cons, ih _ (fun y hy => hl y (by simp [hy]))]
    rcases hl x (by simp) with hx | hx
    · subst hx
      simp [cleanStep_nil]
    · rw [cleanStep_plain _ _ _ hx]
      simp [List.filter_cons, hx.1]

theorem slash_cons_stringsJoin (m : List GoString) (hm : m ≠ []) :
    slash :: stringsJoin slash m = absPath m := by
  induction m with
  | nil => exact absurd rfl hm
  | cons x xs ih =>
    cases xs with
    | nil => simp [stringsJoin, absPath]
    | cons y ys =>
      have := ih (by simp)
      simp only [stringsJoin, absPath] at this ⊢
      rw [this]

theorem filepathClean_absPath (l : List GoString) (hne : l.filter (fun x => x ≠ []) ≠ [])
    (hl : ∀ x ∈ l, x = [] ∨ plainElem x) :
    filepathClean (absPath l) = absPath (l.filter (fun x => x ≠ [])) := by
  have hslash : ∀ x ∈ l, slash ∉ x := by
    intro x hx
    rcases hl x hx with h | h
    · simp [h]
    · exact h.2.1
  cases l with
  | nil => simp at hne
  | cons x xs =>
    have hsplit : stringsSplit slash (absPath (x :: xs)) = [] :: x :: xs := by
      rw [absPath, stringsSplit_cons_sep,
        stringsSplit_elem_absPath x xs (hslash x (by simp)) (fun y hy => hslash y (by simp [hy]))]
    unfold filepathClean
    rw [hsplit]
    have hhead : (absPath (x :: xs)).head? = some slash := rfl
    have hnil : absPath (x :: xs) ≠ [] := by simp [absPath]
    rw [if_neg hnil]
    dsimp only
    rw [List.foldl_cons, cleanStep_nil, foldl_cleanStep _ (x :: xs) [] hl]
    simp only [hhead, List.append_nil, List.reverse_reverse, if_true]
    exact slash_cons_stringsJoin _ hne

theorem filter_plain (l : List GoString) (hl : ∀ x ∈ l, plainElem x) :
    l.filter (fun x => x ≠ []) = l := by
  rw [List.filter_eq_self]
  intro x hx
  simpa using (hl x hx).1

theorem filepathJoin_absPath (rs ks : List GoString) (hk : ks ≠ [])
    (hrs : ∀ x ∈ rs, plainElem x) (hks : ∀ x ∈ ks, plainElem x) :
    filepathJoin [absPath rs, absPath ks] = absPath (rs ++ ks) := by
  have hkne : absPath ks ≠ [] := by
    cases ks with
    | nil => exact absurd rfl hk
    | cons y ys => simp [absPath]
  cases rs with
  | nil =>
    simp only [filepathJoin, absPath, ne_eq, not_true_eq_false, if_false, hkne,
      not_false_eq_true, if_true, stringsJoin, List.nil_append]
    rw [filepathClean_absPath ks (by rw [filter_plain ks hks]; exact hk)
      (fun x hx => Or.inr (hks x hx)), filter_plain ks hks]
  | cons r rest =>
    have hrne : absPath (r :: rest) ≠ [] := by simp [absPath]
    have hjoin : stringsJoin slash [absPath (r :: rest), absPath ks] =
        absPath ((r :: rest) ++ [] :: ks) := by
      rw [absPath_append]
      simp [stringsJoin, absPath]
    simp only [filepathJoin, ne_eq, hrne, not_false_eq_true, if_true]
    rw [hjoin, filepathClean_absPath]
    · rw [List.filter_append, filter_plain _ hrs]
      have : List.filter (fun x => decide (x ≠ [])) ([] :: ks) = ks := by
        rw [List.filter_cons, filter_plain _ hks]
        simp
      rw [this]
    · rw [List.filter_append, filter_plain _ hrs]
      simp
    · intro x hx
      rcases List.mem_append.1 hx with h | h
      · exact Or.inr (hrs x h)
      · rcases List.mem_cons.1 h with h | h
        · exact Or.inl h
        · exact Or.inr (hks x h)

theorem filepathJoin_absPath_elem (ms : List GoString) (file : GoString) (hm : ms ≠ [])
    (hms : ∀ x ∈ ms, plainElem x) (hf : plainElem file) :
    filepathJoin [absPath ms, file] = absPath (ms ++ [file]) := by
  have hmne : absPath ms ≠ [] := by
    cases ms with
    | nil => exact absurd rfl hm
    | cons y ys => simp [absPath]
  have hall : ∀ x ∈ ms ++ [file], plainElem x := by
    intro x hx
    rcases List.mem_append.1 hx with h | h
    · exact hms x h
    · rw [List.mem_singleton.1 h]
      exact hf
  have hjoin : stringsJoin slash [absPath ms, file] = absPath (ms ++ [file]) := by
    rw [absPath_append]
    simp [stringsJoin, absPath]
  simp only [filepathJoin, ne_eq, hmne, not_false_eq_true, if_true]
  rw [hjoin, filepathClean_absPath _ (by rw [filter_plain _ hall]; simp)
    (fun x hx => Or.inr (hall x hx)), filter_plain _ hall]

theorem plainElem_fileName (configType : GoString) (h : slash ∉ configType) :
    plainElem (FN ++ str "." ++ configType) := by
  refine ⟨by simp [FN, str], ?_, by simp [FN, str], by simp [FN, str]⟩
  intro hm
  rcases List.mem_append.1 hm with h1 | h1
  · revert h1
    decide
  · exact h h1


/-! ## Where the cache file is -/

theorem SetWatcher_handle (env : Env) (e : EtcdConfig) (s : Sys) :
    (SetWatcher env e s).1.path = filepathJoin [env.getenv PATH, e.keyName]
    ∧ (SetWatcher env e s).1.configType = e.configType
    ∧ (SetWatcher env e s).1.keyName = e.keyName
    ∧ (SetWatcher env e s).1.group = e.group
    ∧ (SetWatcher env e s).1.keyPrefix = e.keyPrefix := by
  rw [SetWatcher_eq]
  cases env.mkdirAll (filepathJoin [env.getenv PATH, e.keyName]) with
  | some err => simp
  | none =>
    cases (env.write s.nWrites).err with
    | some err => simp
    | none =>
      simp only [NewViper_handle]
      cases env.readInConfig _ _ <;> simp

theorem cacheFile_absPath (e : EtcdConfig) (rs ps : List GoString) (root : GoString)
    (hroot : root = absPath rs) (hpfx : e.keyPrefix = absPath ps)
    (hrs : ∀ x ∈ rs, plainElem x) (hps : ∀ x ∈ ps, plainElem x)
    (hg : plainElem e.group) (ht : plainElem e.configType) :
    filepathJoin [filepathJoin [root, e.keyPrefix ++ str "/" ++ e.group ++ str "/" ++ e.configType],
        FN ++ str "." ++ e.configType] =
      root ++ e.keyPrefix ++ str "/" ++ e.group ++ str "/" ++ e.configType ++
        str "/application." ++ e.configType := by
  have hkey : e.keyPrefix ++ str "/" ++ e.group ++ str "/" ++ e.configType =
      absPath (ps ++ [e.group, e.configType]) := by
    rw [hpfx, absPath_append]
    simp [absPath, str, slash]
  have hks : ∀ x ∈ ps ++ [e.group, e.configType], plainElem x := by
    intro x hx
    rcases List.mem_append.1 hx with h | h
    · exact hps x h
    · simp only [List.mem_cons, List.mem_singleton, List.not_mem_nil, or_false] at h
      rcases h with h | h
      · rw [h]; exact hg
      · rw [h]; exact ht
  have hall : ∀ x ∈ rs ++ (ps ++ [e.group, e.configType]), plainElem x := by
    intro x hx
    rcases List.mem_append.1 hx with h | h
    · exact hrs x h
    · exact hks x h
  rw [hkey, hroot, filepathJoin_absPath rs _ (by simp) hrs hks,
    filepathJoin_absPath_elem _ _ (by simp) hall (plainElem_fileName _ ht.2.1)]
  rw [hpfx]
  simp [absPath_append, absPath, str, slash, FN]

/-- C7: after `SetWatcher`, the cache path of the handle is the path join of the root
environment value with the remote key the handle had when `SetWatcher` ran, and the file
`WriteCache` writes is the path join of that directory with `application.` followed by the
format; a later `EtcdPut` does not move it.  When the root and the prefix are made of plain
path elements each preceded by `/` and group and format are plain path elements, this file is
`<root><pfx>/<group>/<format>/application.<format>`; with the default prefix it is
`<root>/hub-config/etcd/<group>/<format>/application.<format>`. -/
theorem cacheFile_location (env : Env) (e : EtcdConfig) (s : Sys) :
    (SetWatcher env e s).1.path = filepathJoin [env.getenv PATH, e.keyName]
    ∧ cacheFile (SetWatcher env e s).1 =
        filepathJoin [filepathJoin [env.getenv PATH, e.keyName],
          str "application." ++ e.configType]
    ∧ (∀ env2 content s2,
        (WriteCache env2 (SetWatcher env e s).1 content s2).1.trace =
          s2.trace ++ [.writeFile (filepathJoin [filepathJoin [env.getenv PATH, e.keyName],
            str "application." ++ e.configType]) content 0o644])
    ∧ (∀ env2 v g t s2,
        cacheFile (EtcdPut env2 (SetWatcher env e s).1 v g t s2).1 =
          cacheFile (SetWatcher env e s).1)
    ∧ (∀ rs ps : List GoString,
        env.getenv PATH = absPath rs → e.keyPrefix = absPath ps →
        e.keyName = e.keyPrefix ++ str "/" ++ e.group ++ str "/" ++ e.configType →
        (∀ x ∈ rs, plainElem x) → (∀ x ∈ ps, plainElem x) →
        plainElem e.group → plainElem e.configType →
        cacheFile (SetWatcher env e s).1 =
          env.getenv PATH ++ e.keyPrefix ++ str "/" ++ e.group ++ str "/" ++ e.configType ++
            str "/application." ++ e.configType)
    ∧ (∀ rs : List GoString,
        env.getenv PATH = absPath rs → e.keyPrefix = str "/hub-config/etcd" →
        e.keyName = e.keyPrefix ++ str "/" ++ e.group ++ str "/" ++ e.configType →
        (∀ x ∈ rs, plainElem x) → plainElem e.group → plainElem e.configType →
        cacheFile (SetWatcher env e s).1 =
          env.getenv PATH ++ str "/hub-config/etcd/" ++ e.group ++ str "/" ++ e.configType ++
            str "/application." ++ e.configType) := by
  obtain ⟨hp, hc, -, -, -⟩ := SetWatcher_handle env e s
  have hfile : cacheFile (SetWatcher env e s).1 =
      filepathJoin [filepathJoin [env.getenv PATH, e.keyName],
        str "application." ++ e.configType] := by
    unfold cacheFile
    rw [hp, hc]
    rfl
  have hFN : FN ++ str "." = str "application." := by decide
  refine ⟨hp, hfile, ?_, ?_, ?_, ?_⟩
  · intro env2 content s2
    rw [WriteCache_trace, hfile]
  · intro env2 v g t s2
    rfl
  · intro rs ps hroot hpfx hkey hrs hps hg ht
    rw [hfile, hkey, ← hFN]
    exact cacheFile_absPath e rs ps _ hroot hpfx hrs hps hg ht
  · intro rs hroot hpfx hkey hrs hg ht
    rw [hfile, hkey, ← hFN]
    have := cacheFile_absPath e rs [str "hub-config", str "etcd"] _ hroot
      (by rw [hpfx]; decide) hrs (by decide) hg ht
    rw [this, hpfx]
    simp [str]

theorem cacheFile_location_witness :
    cacheFile (SetWatcher quietEnv testHandle emptySys).1 =
      str "/root/hub-config/etcd/test/json/application.json" := by
  have h := (cacheFile_location quietEnv testHandle emptySys).2.2.2.2.2 [str "root"]
    (by decide) (by decide) (by decide) (by decide) (by decide) (by decide)
  rw [h]
  decide

end EtcdCfg
